import Mathlib

/-!
Verification of the spinner URL-discovery tool (src/main.rs) against its
specification.  The Rust source is shallowly embedded below: each provider
function is split at its network/serde boundary (the outcome of the awaited
reqwest round trip and of the serde_json decode is passed in as data, since
those cross the process boundary), and everything after that boundary is a
direct transcription of the Rust code.  A panic (out-of-bounds Vec index) is
modelled as the none case of an Option; a reqwest transport failure is the
error case of an Except.
-/

set_option maxHeartbeats 1000000
set_option maxRecDepth 16384

/-- Transport-level failure of a reqwest round trip (the reqwest::Error that
the two awaited calls in every provider can return). -/
inductive ReqwestError where
  | transport
deriving DecidableEq

deriving instance DecidableEq for Except

/-- The record type of main.rs: struct Wurl with fields date and url. -/
structure Wurl where
  date : String
  url : String
deriving DecidableEq

/-- Minimal model of serde_json::Value: null, booleans, numbers, strings,
arrays and objects (an object is a field list). -/
inductive Json where
  | null
  | bool (b : Bool)
  | num (n : Int)
  | str (s : String)
  | arr (elems : List Json)
  | obj (fields : List (String × Json))

/-- Field lookup inside an object's field list; Null when absent, as with
serde_json's Value::index. -/
def lookupField : List (String × Json) → String → Json
  | [], _ => .null
  | (k, v) :: rest, key => if k = key then v else lookupField rest key

/-- Model of indexing a serde_json Value with a string key (wrapper["k"]):
returns the field's value, or Null when the value is not an object or the
field is absent. -/
def Json.index (j : Json) (key : String) : Json :=
  match j with
  | .obj fields => lookupField fields key
  | _ => .null

/-- Value::as_str: Some for a JSON string, None otherwise. -/
def Json.asStr : Json → Option String
  | .str s => some s
  | _ => none

/-- Value::as_array: Some for a JSON array, None otherwise. -/
def Json.asArray : Json → Option (List Json)
  | .arr elems => some elems
  | _ => none

/-- The wildcard fragment of get_wayback_urls / get_common_crawl_urls:
empty when no_subs is set, "*." otherwise. -/
def subsWildcard (no_subs : Bool) : String := if no_subs then "" else "*."

/-- The URL built by get_wayback_urls (the format! call at the top of the
function). -/
def waybackQueryUrl (domain : String) (no_subs : Bool) : String :=
  "http://web.archive.org/cdx/search/cdx?url=" ++ subsWildcard no_subs ++ domain ++
    "/*&output=json&collapse=urlkey"

/-- The URL built by get_common_crawl_urls. -/
def commonCrawlQueryUrl (domain : String) (no_subs : Bool) : String :=
  "http://index.commoncrawl.org/CC-MAIN-2018-22-index?url=" ++ subsWildcard no_subs ++
    domain ++ "/*&output=json"

/-- The URL built by get_virus_total_urls; note that this function takes no
subdomain flag at all. -/
def virusTotalQueryUrl (api_key domain : String) : String :=
  "https://www.virustotal.com/vtapi/v2/domain/report?apikey=" ++ api_key ++
    "&domain=" ++ domain

/-- The virus-total entry of the fetch_fns vector in main: the closure
receives the no_subs flag but discards it (the underscore binder in
the Rust closure) and calls get_virus_total_urls with the domain only. -/
def vt_closure_query (api_key domain : String) (_ : Bool) : String :=
  virusTotalQueryUrl api_key domain

/-- The query pattern a provider asks the archive for, as a function of the
no_subs flag: domain/* exactly, or *.domain/* with the wildcard. -/
def queriedPattern (no_subs : Bool) (domain : String) : String :=
  subsWildcard no_subs ++ domain ++ "/*"

/-- The loop body of get_wayback_urls over the rows after the header row:
each row contributes Wurl with date = urls[1] and url = urls[2].  A row with
fewer than three entries makes the Vec index panic; the panic is modelled as
none (it aborts the whole fetch, nothing is returned). -/
def waybackRowsAux : List (List String) → Option (List Wurl)
  | [] => some []
  | row :: rest =>
    match row with
    | _ :: d :: u :: _ => (waybackRowsAux rest).map (fun tail => ⟨d, u⟩ :: tail)
    | _ => none

/-- The full row loop of get_wayback_urls: the first row (i == 0, the header
row of the cdx response) is skipped unconditionally. -/
def waybackProcess (wrapper : List (List String)) : Option (List Wurl) :=
  match wrapper with
  | [] => some []
  | _header :: rest => waybackRowsAux rest

/-- get_wayback_urls beyond the network boundary.  The argument is the
outcome of the awaited reqwest round trip: error for a transport failure,
ok carrying the serde_json::from_str result for the body (none when the body
does not decode as Vec<Vec<String>>), which unwrap_or_default turns into the
empty wrapper.  The outer Option of the result models the panic on a short
row (none = the fetch dies instead of returning). -/
def get_wayback_urls (resp : Except ReqwestError (Option (List (List String)))) :
    Option (Except ReqwestError (List Wurl)) :=
  match resp with
  | .error e => some (.error e)
  | .ok decoded => (waybackProcess (decoded.getD [])).map Except.ok

/-- The line loop of get_common_crawl_urls: each element is the
serde_json::from_str::<Value> outcome for one line of the body (none = the
line does not parse).  A line that parses and has string fields "timestamp"
and "url" contributes a record; every other line is skipped. -/
def commonCrawlProcess : List (Option Json) → List Wurl
  | [] => []
  | line :: rest =>
    match line with
    | some wrapper =>
      match (wrapper.index "timestamp").asStr, (wrapper.index "url").asStr with
      | some date, some url => ⟨date, url⟩ :: commonCrawlProcess rest
      | _, _ => commonCrawlProcess rest
    | none => commonCrawlProcess rest

/-- get_common_crawl_urls beyond the network boundary: transport errors
propagate, otherwise the decoded lines are processed. -/
def get_common_crawl_urls (resp : Except ReqwestError (List (Option Json))) :
    Except ReqwestError (List Wurl) :=
  match resp with
  | .error e => .error e
  | .ok lines => .ok (commonCrawlProcess lines)

/-- The inner loop of get_virus_total_urls over the detected_urls array:
an element with a string "url" field contributes Wurl with an empty date
(the source leaves the date as "" with a TODO); others are skipped. -/
def vtUrls : List Json → List Wurl
  | [] => []
  | url_obj :: rest =>
    match (url_obj.index "url").asStr with
    | some u => ⟨"", u⟩ :: vtUrls rest
    | none => vtUrls rest

/-- The body processing of get_virus_total_urls: wrapper["detected_urls"]
must be an array, otherwise no records. -/
def virusTotalProcess (wrapper : Json) : List Wurl :=
  match (wrapper.index "detected_urls").asArray with
  | some urls => vtUrls urls
  | none => []

/-- get_virus_total_urls beyond the environment/network boundary: api_key is
the value of VT_API_KEY defaulted to "" (an empty key short-circuits to an
empty ok result before any network call); otherwise a transport error
propagates and the decoded body (none = undecodable, defaulted to Null by
unwrap_or_default) is processed. -/
def get_virus_total_urls (api_key : String)
    (resp : Except ReqwestError (Option Json)) : Except ReqwestError (List Wurl) :=
  if api_key = "" then .ok []
  else
    match resp with
    | .error e => .error e
    | .ok decoded => .ok (virusTotalProcess (decoded.getD .null))

/-- The per-domain results map of main (HashMap<String, String> keyed by
url), modelled as an association list with HashMap insert semantics. -/
abbrev ResultSet := List (String × String)

/-- HashMap::insert: replace the value when the key is present (keeping the
entry's position), append the pair otherwise. -/
def insertRS : ResultSet → String → String → ResultSet
  | [], k, v => [(k, v)]
  | (k', v') :: rest, k, v =>
    if k' = k then (k, v) :: rest else (k', v') :: insertRS rest k v

/-- HashMap lookup by key. -/
def lookupRS : ResultSet → String → Option String
  | [], _ => none
  | (k', v) :: rest, k => if k' = k then some v else lookupRS rest k

/-- The key set (the urls) of a ResultSet. -/
def rsKeys (m : ResultSet) : List String := m.map Prod.fst

/-- The insert loop of a provider thread in main: for w in res,
results.insert(w.url, w.date). -/
def mergeResult (m : ResultSet) (res : List Wurl) : ResultSet :=
  res.foldl (fun acc w => insertRS acc w.url w.date) m

/-- One provider thread's whole effect on the shared map: an Ok result is
merged record by record, an Err result leaves the map untouched (the
if let Ok(res) in main). -/
def mergeTask (m : ResultSet) (t : Except ReqwestError (List Wurl)) : ResultSet :=
  match t with
  | .ok res => mergeResult m res
  | .error _ => m

/-- The per-domain aggregation of main: a fresh map, then every task's
result merged in (one interleaving of the mutex-serialized inserts; the
claims proved below do not depend on the interleaving chosen). -/
def aggregate (tasks : List (Except ReqwestError (List Wurl))) : ResultSet :=
  tasks.foldl mergeTask []

/-- The urls contributed by one task: those of an Ok result, none for an
Err result. -/
def taskUrls : Except ReqwestError (List Wurl) → List String
  | .ok res => res.map Wurl.url
  | .error _ => []

/-- The field collection chrono builds while scanning a string against a
format (chrono::format::Parsed): the offset field is filled only by an
offset item of the format string. -/
structure ChronoParsed where
  year : Nat
  month : Nat
  day : Nat
  hour : Nat
  minute : Nat
  second : Nat
  offset : Option Int
deriving DecidableEq

/-- Value of a digit run. -/
def digitsVal (cs : List Char) : Nat :=
  cs.foldl (fun a c => a * 10 + (c.toNat - 48)) 0

/-- The scan phase of chrono parsing for the format "%Y%m%d%H%M%S" used in
main: six fixed-width numeric fields, fourteen digits in all.  The format
string contains no offset item (no %z, %:z, ...), so the offset field of the
scan result is never set. -/
def scan_YmdHMS (s : String) : Option ChronoParsed :=
  let cs := s.data
  if cs.length = 14 ∧ cs.all Char.isDigit then
    let y := digitsVal (cs.take 4)
    let mo := digitsVal ((cs.drop 4).take 2)
    let d := digitsVal ((cs.drop 6).take 2)
    let h := digitsVal ((cs.drop 8).take 2)
    let mi := digitsVal ((cs.drop 10).take 2)
    let sec := digitsVal ((cs.drop 12).take 2)
    if 1 ≤ mo ∧ mo ≤ 12 ∧ 1 ≤ d ∧ d ≤ 31 ∧ h ≤ 23 ∧ mi ≤ 59 ∧ sec ≤ 60 then
      some ⟨y, mo, d, h, mi, sec, none⟩
    else none
  else none

/-- A chrono DateTime<FixedOffset>: the parsed civil fields together with
the mandatory UTC offset. -/
structure ChronoDateTime where
  year : Nat
  month : Nat
  day : Nat
  hour : Nat
  minute : Nat
  second : Nat
  offsetSeconds : Int
deriving DecidableEq

/-- Parsed::to_datetime of chrono: constructing a DateTime<FixedOffset>
requires the parsed offset field; when the format supplied no offset item
the field is unset and chrono fails with the NOT_ENOUGH parse error,
modelled as none. -/
def ChronoParsed.to_datetime (p : ChronoParsed) : Option ChronoDateTime :=
  match p.offset with
  | none => none
  | some off => some ⟨p.year, p.month, p.day, p.hour, p.minute, p.second, off⟩

/-- chrono's DateTime::parse_from_str(s, "%Y%m%d%H%M%S") as called in main:
scan the fields, then build the offset-carrying DateTime.  Because the
format has no offset item, the second phase fails for every input. -/
def DateTime_parse_from_str_YmdHMS (s : String) : Option ChronoDateTime :=
  (scan_YmdHMS s).bind ChronoParsed.to_datetime

/-- Two-digit zero-padded field. -/
def pad2 (n : Nat) : String := if n < 10 then "0" ++ toString n else toString n

/-- Four-digit zero-padded field. -/
def pad4 (n : Nat) : String :=
  if n < 10 then "000" ++ toString n
  else if n < 100 then "00" ++ toString n
  else if n < 1000 then "0" ++ toString n
  else toString n

/-- with_timezone(&Utc).to_rfc3339 for the zero-offset case, the only case
the emitter of main could ever build (the parse phase can only produce an
offset through an offset item, which this format lacks). -/
def to_rfc3339_utc (dt : ChronoDateTime) : String :=
  pad4 dt.year ++ "-" ++ pad2 dt.month ++ "-" ++ pad2 dt.day ++ "T" ++
    pad2 dt.hour ++ ":" ++ pad2 dt.minute ++ ":" ++ pad2 dt.second ++ "+00:00"

/-- What the emitter loop of main writes: the println lines (stdout) and the
eprintln lines (stderr), in loop order. -/
structure EmitOutput where
  stdout : List String
  stderr : List String
deriving DecidableEq

/-- The output loop at the bottom of main over the (url, date) entries of
the results map: with the dates flag, a successfully parsed date prints the
rfc3339 form and the url to stdout, a failed parse prints the diagnostic to
stderr; without the flag, the url alone goes to stdout. -/
def emit : Bool → List (String × String) → EmitOutput
  | _, [] => ⟨[], []⟩
  | dates, (url, date) :: rest =>
    if dates then
      match DateTime_parse_from_str_YmdHMS date with
      | some parsed_date =>
        ⟨(to_rfc3339_utc parsed_date ++ " " ++ url) :: (emit dates rest).stdout,
         (emit dates rest).stderr⟩
      | none =>
        ⟨(emit dates rest).stdout,
         ("failed to parse date [" ++ date ++ "] for URL [" ++ url ++ "]") ::
           (emit dates rest).stderr⟩
    else ⟨url :: (emit dates rest).stdout, (emit dates rest).stderr⟩

/-- The command-line surface of main: argv (program name first, exactly as
env::args() yields it) and the lines available on standard input. -/
structure CliInput where
  args : List String
  stdinLines : List String
deriving DecidableEq

/-- args.contains("--dates") in main. -/
def flagDates (inp : CliInput) : Bool := inp.args.contains "--dates"

/-- args.contains("--no-subs") in main. -/
def flagNoSubs (inp : CliInput) : Bool := inp.args.contains "--no-subs"

/-- The domain-list selection of main: when args.len() > 1 the whole argv
tail (flags included) is the domain list and stdin is never touched;
otherwise the stdin lines are the domains.  The Bool records whether stdin
was read. -/
def domainsAndStdin (inp : CliInput) : List String × Bool :=
  if inp.args.length > 1 then (inp.args.drop 1, false) else (inp.stdinLines, true)


/-! ### Lemmas about the deduplicating map -/

theorem rsKeys_nil : rsKeys [] = [] := rfl

theorem rsKeys_cons (a b : String) (rest : ResultSet) :
    rsKeys ((a, b) :: rest) = a :: rsKeys rest := rfl

theorem insertRS_cons (a b : String) (rest : ResultSet) (k v : String) :
    insertRS ((a, b) :: rest) k v =
      if a = k then (k, v) :: rest else (a, b) :: insertRS rest k v := rfl

theorem rsKeys_insertRS_of_mem (m : ResultSet) (k v : String) :
    k ∈ rsKeys m → rsKeys (insertRS m k v) = rsKeys m := by
  induction m with
  | nil => intro h; simp [rsKeys] at h
  | cons p rest ih =>
    obtain ⟨a, b⟩ := p
    intro h
    by_cases hk : a = k
    · subst hk; simp [insertRS_cons, rsKeys_cons]
    · have h' : k ∈ rsKeys rest := by
        rw [rsKeys_cons] at h
        rcases List.mem_cons.mp h with h1 | h1
        · exact absurd h1.symm hk
        · exact h1
      rw [insertRS_cons, if_neg hk, rsKeys_cons, rsKeys_cons, ih h']

theorem mem_rsKeys_insertRS_self (m : ResultSet) (k v : String) :
    k ∈ rsKeys (insertRS m k v) := by
  induction m with
  | nil => simp [insertRS, rsKeys]
  | cons p rest ih =>
    obtain ⟨a, b⟩ := p
    by_cases hk : a = k
    · rw [insertRS_cons, if_pos hk, rsKeys_cons]
      exact List.mem_cons_self k _
    · rw [insertRS_cons, if_neg hk, rsKeys_cons]
      exact List.mem_cons_of_mem a ih

theorem rsKeys_subset_insertRS (m : ResultSet) (k v : String) :
    rsKeys m ⊆ rsKeys (insertRS m k v) := by
  induction m with
  | nil => intro x hx; simp [rsKeys] at hx
  | cons p rest ih =>
    obtain ⟨a, b⟩ := p
    intro x hx
    rw [rsKeys_cons] at hx
    by_cases hk : a = k
    · subst hk
      rw [insertRS_cons, if_pos rfl, rsKeys_cons]
      exact hx
    · rw [insertRS_cons, if_neg hk, rsKeys_cons]
      rcases List.mem_cons.mp hx with h1 | h1
      · exact h1 ▸ List.mem_cons_self x _
      · exact List.mem_cons_of_mem a (ih h1)

theorem mem_rsKeys_insertRS (m : ResultSet) (k v k' : String) :
    k' ∈ rsKeys (insertRS m k v) → k' ∈ rsKeys m ∨ k' = k := by
  induction m with
  | nil =>
    intro h
    simp [insertRS, rsKeys] at h
    exact Or.inr h
  | cons p rest ih =>
    obtain ⟨a, b⟩ := p
    intro h
    by_cases hk : a = k
    · rw [insertRS_cons, if_pos hk, rsKeys_cons] at h
      rcases List.mem_cons.mp h with h1 | h1
      · exact Or.inr h1
      · exact Or.inl (by rw [rsKeys_cons]; exact List.mem_cons_of_mem a h1)
    · rw [insertRS_cons, if_neg hk, rsKeys_cons] at h
      rcases List.mem_cons.mp h with h1 | h1
      · exact Or.inl (by rw [rsKeys_cons]; exact h1 ▸ List.mem_cons_self k' _)
      · rcases ih h1 with h2 | h2
        · exact Or.inl (by rw [rsKeys_cons]; exact List.mem_cons_of_mem a h2)
        · exact Or.inr h2

theorem lookupRS_insertRS (m : ResultSet) (k v k' : String) :
    lookupRS (insertRS m k v) k' = if k = k' then some v else lookupRS m k' := by
  induction m with
  | nil => simp [insertRS, lookupRS]
  | cons p rest ih =>
    obtain ⟨a, b⟩ := p
    by_cases hk : a = k
    · subst hk
      by_cases hq : a = k'
      · subst hq; simp [insertRS_cons, lookupRS]
      · simp [insertRS_cons, lookupRS, hq]
    · by_cases hq : a = k'
      · subst hq
        have hne : k ≠ a := fun h => hk h.symm
        simp [insertRS_cons, hk, lookupRS, hne]
      · simp [insertRS_cons, hk, lookupRS, hq, ih]

theorem mergeResult_cons (m : ResultSet) (w : Wurl) (res : List Wurl) :
    mergeResult m (w :: res) = mergeResult (insertRS m w.url w.date) res := rfl

theorem rsKeys_subset_mergeResult (res : List Wurl) (m : ResultSet) :
    rsKeys m ⊆ rsKeys (mergeResult m res) := by
  induction res generalizing m with
  | nil => exact fun x hx => hx
  | cons w rest ih =>
    intro x hx
    rw [mergeResult_cons]
    exact ih _ (rsKeys_subset_insertRS m w.url w.date hx)

theorem mem_rsKeys_mergeResult_of_mem (res : List Wurl) (m : ResultSet) (w : Wurl) :
    w ∈ res → w.url ∈ rsKeys (mergeResult m res) := by
  induction res generalizing m with
  | nil => intro hw; cases hw
  | cons a rest ih =>
    intro hw
    rw [mergeResult_cons]
    rcases List.mem_cons.mp hw with h | h
    · subst h
      exact rsKeys_subset_mergeResult rest _ (mem_rsKeys_insertRS_self m w.url w.date)
    · exact ih _ h

theorem rsKeys_mergeResult_of_forall (res : List Wurl) (m : ResultSet) :
    (∀ w ∈ res, w.url ∈ rsKeys m) → rsKeys (mergeResult m res) = rsKeys m := by
  induction res generalizing m with
  | nil => intro _; rfl
  | cons w rest ih =>
    intro h
    rw [mergeResult_cons]
    have h1 : w.url ∈ rsKeys m := h w (List.mem_cons_self w rest)
    have h2 : rsKeys (insertRS m w.url w.date) = rsKeys m :=
      rsKeys_insertRS_of_mem m w.url w.date h1
    have h3 : ∀ w' ∈ rest, w'.url ∈ rsKeys (insertRS m w.url w.date) := fun w' hw' => by
      rw [h2]; exact h w' (List.mem_cons_of_mem w hw')
    rw [ih _ h3, h2]

theorem mem_rsKeys_mergeResult (res : List Wurl) (m : ResultSet) (k : String) :
    k ∈ rsKeys (mergeResult m res) → k ∈ rsKeys m ∨ k ∈ res.map Wurl.url := by
  induction res generalizing m with
  | nil => exact fun h => Or.inl h
  | cons w rest ih =>
    intro h
    rw [mergeResult_cons] at h
    rcases ih _ h with h' | h'
    · rcases mem_rsKeys_insertRS m w.url w.date k h' with h'' | h''
      · exact Or.inl h''
      · exact Or.inr (by simp [h''])
    · exact Or.inr (by simp [h'])

theorem mem_rsKeys_foldl_mergeTask (tasks : List (Except ReqwestError (List Wurl)))
    (m : ResultSet) (k : String) :
    k ∈ rsKeys (tasks.foldl mergeTask m) → k ∈ rsKeys m ∨ ∃ t ∈ tasks, k ∈ taskUrls t := by
  induction tasks generalizing m with
  | nil => exact fun h => Or.inl h
  | cons t rest ih =>
    intro h
    simp only [List.foldl_cons] at h
    rcases ih _ h with h' | h'
    · match t with
      | .error e => exact Or.inl h'
      | .ok res =>
        rcases mem_rsKeys_mergeResult res m k h' with h'' | h''
        · exact Or.inl h''
        · exact Or.inr ⟨.ok res, List.mem_cons_self _ _, h''⟩
    · rcases h' with ⟨t', ht', hk⟩
      exact Or.inr ⟨t', List.mem_cons_of_mem t ht', hk⟩

/-! ### Lemmas about the emitter and the date parse -/

theorem scan_YmdHMS_offset (s : String) (p : ChronoParsed) (h : scan_YmdHMS s = some p) :
    p.offset = none := by
  unfold scan_YmdHMS at h
  dsimp only at h
  split_ifs at h with h1 h2
  injection h with h3
  rw [← h3]

theorem parse_always_none (s : String) : DateTime_parse_from_str_YmdHMS s = none := by
  unfold DateTime_parse_from_str_YmdHMS
  rcases h : scan_YmdHMS s with _ | p
  · rfl
  · have ho := scan_YmdHMS_offset s p h
    simp [Option.bind, ChronoParsed.to_datetime, ho]

theorem emit_append (b : Bool) (xs ys : List (String × String)) :
    emit b (xs ++ ys) =
      ⟨(emit b xs).stdout ++ (emit b ys).stdout, (emit b xs).stderr ++ (emit b ys).stderr⟩ := by
  induction xs with
  | nil => simp [emit]
  | cons p rest ih =>
    obtain ⟨u, d⟩ := p
    cases b with
    | false => simp [emit, ih]
    | true =>
      cases hp : DateTime_parse_from_str_YmdHMS d with
      | some dt => simp [emit, hp, ih]
      | none => simp [emit, hp, ih]

/-! ### Lemmas about skipped records -/

theorem commonCrawlProcess_cons_none (rest : List (Option Json)) :
    commonCrawlProcess (none :: rest) = commonCrawlProcess rest := rfl

theorem commonCrawlProcess_cons_skip (j : Json) (rest : List (Option Json))
    (h : Json.asStr (Json.index j "timestamp") = none ∨ Json.asStr (Json.index j "url") = none) :
    commonCrawlProcess (some j :: rest) = commonCrawlProcess rest := by
  rcases hts : Json.asStr (Json.index j "timestamp") with _ | ts <;>
    rcases hus : Json.asStr (Json.index j "url") with _ | us <;>
      simp only [commonCrawlProcess, hts, hus]
  rcases h with h | h
  · rw [hts] at h; exact Option.noConfusion h
  · rw [hus] at h; exact Option.noConfusion h

theorem commonCrawlProcess_append (xs ys : List (Option Json)) :
    commonCrawlProcess (xs ++ ys) = commonCrawlProcess xs ++ commonCrawlProcess ys := by
  induction xs with
  | nil => rfl
  | cons l rest ih =>
    cases l with
    | none => simp only [List.cons_append, commonCrawlProcess_cons_none, ih]
    | some wrapper =>
      rcases hts : Json.asStr (Json.index wrapper "timestamp") with _ | ts <;>
        rcases hus : Json.asStr (Json.index wrapper "url") with _ | us <;>
          simp only [List.cons_append, commonCrawlProcess, hts, hus, ih, List.nil_append]
      all_goals first | exact ih | exact congrArg _ ih

theorem vtUrls_skip (obj : Json) (rest : List Json)
    (h : Json.asStr (Json.index obj "url") = none) :
    vtUrls (obj :: rest) = vtUrls rest := by
  simp only [vtUrls, h]

theorem vtUrls_append (xs ys : List Json) :
    vtUrls (xs ++ ys) = vtUrls xs ++ vtUrls ys := by
  induction xs with
  | nil => rfl
  | cons obj rest ih =>
    rcases hu : Json.asStr (Json.index obj "url") with _ | u <;>
      simp only [List.cons_append, vtUrls, hu, ih, List.nil_append]
    all_goals first | exact ih | exact congrArg _ ih

theorem waybackRowsAux_bad (row : List String) (pre post : List (List String)) :
    row.length < 3 → waybackRowsAux (pre ++ row :: post) = none := by
  induction pre with
  | nil =>
    intro h
    rcases row with _ | ⟨a, _ | ⟨b, _ | ⟨c, t⟩⟩⟩
    · rfl
    · rfl
    · rfl
    · exfalso
      simp only [List.length_cons] at h
      omega
  | cons r rest ih =>
    intro h
    rcases r with _ | ⟨a, _ | ⟨b, _ | ⟨c, t⟩⟩⟩
    · rfl
    · rfl
    · rfl
    · show (waybackRowsAux (rest ++ row :: post)).map _ = none
      rw [ih h]
      rfl

/-! ### The claims -/

/-- Claim C1 (code bug): the spec requires the timestamped mode to turn the
date "20180101000000" into the stdout line
"2018-01-01T00:00:00+00:00 <url>", but chrono's DateTime::parse_from_str
with the format "%Y%m%d%H%M%S" fails for every input (the format carries no
offset item, and a DateTime<FixedOffset> cannot be built without one), so
the emitter writes the failure diagnostic to stderr and nothing to stdout. -/
theorem claim_C1 :
    (∀ s, DateTime_parse_from_str_YmdHMS s = none) ∧
    emit true [("http://example.com/", "20180101000000")] =
      ⟨[], ["failed to parse date [20180101000000] for URL [http://example.com/]"]⟩ :=
  ⟨parse_always_none, rfl⟩

/-- Counterexample to claim C2 as stated: a wayback response whose third row
has a single column.  The fetch does not skip the malformed row and return
the two well-formed records; it panics (the Vec index out of bounds on
urls[1]/urls[2]), modelled as none. -/
theorem claim_C2_cex :
    get_wayback_urls (Except.ok (some [["urlkey", "timestamp", "original"],
        ["a0", "20180101000000", "http://x/1"], ["b0"],
        ["c0", "20190101000000", "http://x/2"]])) = none ∧
    get_wayback_urls (Except.ok (some [["urlkey", "timestamp", "original"],
        ["a0", "20180101000000", "http://x/1"], ["b0"],
        ["c0", "20190101000000", "http://x/2"]])) ≠
      some (Except.ok [⟨"20180101000000", "http://x/1"⟩, ⟨"20190101000000", "http://x/2"⟩]) := by
  refine ⟨rfl, by decide⟩

/-- Claim C2, amended: a malformed record is skipped only by the
common-crawl provider (a line that does not parse, or parses without string
timestamp/url fields) and by the threat-intel provider (a detected_urls
element without a string url field); for the wayback provider a row with
fewer than three columns is fatal to the whole fetch (index panic), it is
not skipped. -/
theorem claim_C2_amended :
    (∀ (pre post : List (Option Json)),
      commonCrawlProcess (pre ++ none :: post) = commonCrawlProcess (pre ++ post)) ∧
    (∀ (pre post : List (Option Json)) (j : Json),
      (Json.asStr (Json.index j "timestamp") = none ∨ Json.asStr (Json.index j "url") = none) →
      commonCrawlProcess (pre ++ some j :: post) = commonCrawlProcess (pre ++ post)) ∧
    (∀ (pre post : List Json) (obj : Json),
      Json.asStr (Json.index obj "url") = none →
      vtUrls (pre ++ obj :: post) = vtUrls (pre ++ post)) ∧
    (∀ (header row : List String) (pre post : List (List String)),
      row.length < 3 → waybackProcess (header :: (pre ++ row :: post)) = none) := by
  refine ⟨?_, ?_, ?_, ?_⟩
  · intro pre post
    rw [commonCrawlProcess_append, commonCrawlProcess_append, commonCrawlProcess_cons_none]
  · intro pre post j h
    rw [commonCrawlProcess_append, commonCrawlProcess_append,
      commonCrawlProcess_cons_skip j post h]
  · intro pre post obj h
    rw [vtUrls_append, vtUrls_append, vtUrls_skip obj post h]
  · intro header row pre post h
    show waybackRowsAux (pre ++ row :: post) = none
    exact waybackRowsAux_bad row pre post h

theorem claim_C2_amended_witness :
    (Json.asStr (Json.index (Json.obj []) "timestamp") = none ∧
      commonCrawlProcess [some (Json.obj [])] = commonCrawlProcess []) ∧
    (Json.asStr (Json.index (Json.obj []) "url") = none ∧
      vtUrls [Json.obj []] = vtUrls []) ∧
    ((["k", "20180101000000"] : List String).length < 3 ∧
      waybackProcess [["h"], ["k", "20180101000000"]] = none) :=
  ⟨⟨rfl, claim_C2_amended.2.1 [] [] (Json.obj []) (Or.inl rfl)⟩,
   ⟨rfl, claim_C2_amended.2.2.1 [] [] (Json.obj []) rfl⟩,
   ⟨by decide, claim_C2_amended.2.2.2 ["h"] ["k", "20180101000000"] [] [] (by decide)⟩⟩

/-- Counterexample to claim C3 as stated: the threat-intel provider's query
for domain example.com (with a configured key "k") contains neither the
wildcard pattern *.example.com/* nor the exact pattern example.com/*, and
the fetch closure ignores the subdomain flag altogether. -/
theorem claim_C3_cex :
    ¬ ("*.example.com/*".toList <:+: (vt_closure_query "k" "example.com" false).toList) ∧
    ¬ ("example.com/*".toList <:+: (vt_closure_query "k" "example.com" true).toList) ∧
    vt_closure_query "k" "example.com" false = vt_closure_query "k" "example.com" true :=
  ⟨by decide, by decide, rfl⟩

/-- Claim C3, amended: the wayback and common-crawl providers query with the
exact pattern domain/* when the subdomain flag is off (no_subs = true) and
with the wildcard pattern *.domain/* when it is on; the threat-intel
provider ignores the flag and queries by bare domain with no path pattern
(its query is apikey=<key>&domain=<domain>). -/
theorem claim_C3_amended (domain : String) (ns : Bool) :
    waybackQueryUrl domain ns =
      "http://web.archive.org/cdx/search/cdx?url=" ++ queriedPattern ns domain ++
        "&output=json&collapse=urlkey" ∧
    commonCrawlQueryUrl domain ns =
      "http://index.commoncrawl.org/CC-MAIN-2018-22-index?url=" ++ queriedPattern ns domain ++
        "&output=json" ∧
    (∀ key b, vt_closure_query key domain b = virusTotalQueryUrl key domain) ∧
    (∀ key, virusTotalQueryUrl key domain =
      "https://www.virustotal.com/vtapi/v2/domain/report?apikey=" ++ key ++
        "&domain=" ++ domain) := by
  refine ⟨?_, ?_, fun key b => rfl, fun key => rfl⟩
  · have h1 : ("/*&output=json&collapse=urlkey" : String) =
        "/*" ++ "&output=json&collapse=urlkey" := rfl
    simp only [waybackQueryUrl, queriedPattern, h1, String.append_assoc]
  · have h1 : ("/*&output=json" : String) = "/*" ++ "&output=json" := rfl
    simp only [commonCrawlQueryUrl, queriedPattern, h1, String.append_assoc]

/-- Counterexample to claim C4 as stated: an undecodable body does not make
the fetch return an error; unwrap_or_default turns it into the default
value, so the wayback fetch returns the successful empty list (and so does
the threat-intel fetch with a configured key). -/
theorem claim_C4_cex :
    get_wayback_urls (Except.ok none) = some (Except.ok []) ∧
    get_wayback_urls (Except.ok none) ≠ some (Except.error ReqwestError.transport) ∧
    get_virus_total_urls "k" (Except.ok none) = Except.ok [] :=
  ⟨rfl, by decide, rfl⟩

/-- Claim C4, amended: a response body that cannot be decoded at all is
defaulted by unwrap_or_default, so the wayback and threat-intel fetches
return the successful empty list, not an error; only a transport failure is
returned as an error. -/
theorem claim_C4_amended :
    get_wayback_urls (Except.ok none) = some (Except.ok []) ∧
    (∀ key, key ≠ "" → get_virus_total_urls key (Except.ok none) = Except.ok []) ∧
    (∀ e, get_wayback_urls (Except.error e) = some (Except.error e)) ∧
    (∀ key e, key ≠ "" → get_virus_total_urls key (Except.error e) = Except.error e) := by
  refine ⟨rfl, ?_, fun e => rfl, ?_⟩
  · intro key hk
    simp [get_virus_total_urls, hk, virusTotalProcess, Json.index, Json.asArray]
  · intro key e hk
    simp [get_virus_total_urls, hk]

theorem claim_C4_amended_witness :
    (("k" : String) ≠ "") ∧
    get_virus_total_urls "k" (Except.ok none) = Except.ok [] ∧
    get_virus_total_urls "k" (Except.error ReqwestError.transport) =
      Except.error ReqwestError.transport :=
  ⟨by decide, claim_C4_amended.2.1 "k" (by decide),
    claim_C4_amended.2.2.2 "k" ReqwestError.transport (by decide)⟩

/-- Claim C5 (code bug): main tests args.len() > 1 on the raw argv, so a
flag counts as a positional argument.  With argv [spinner, --dates] and the
line example.com waiting on stdin, main recognizes the dates flag yet also
uses the whole argv tail as the domain list: the domains become [--dates]
and stdin is never read, where the spec requires reading example.com from
stdin when no positional domain is given. -/
theorem claim_C5 :
    flagDates ⟨["spinner", "--dates"], ["example.com"]⟩ = true ∧
    domainsAndStdin ⟨["spinner", "--dates"], ["example.com"]⟩ = (["--dates"], false) ∧
    domainsAndStdin ⟨["spinner", "--dates"], ["example.com"]⟩ ≠ (["example.com"], true) := by
  refine ⟨rfl, rfl, by decide⟩

/-- Counterexample to claim C6 as stated: a wayback row whose original-url
column is the empty string yields an accepted record with an empty url, and
the merge puts the empty string into the key set of the ResultSet. -/
theorem claim_C6_cex :
    waybackProcess [["h", "h", "h"], ["k", "20180101000000", ""]] =
      some [⟨"20180101000000", ""⟩] ∧
    ("" ∈ rsKeys (aggregate [Except.ok [⟨"20180101000000", ""⟩]])) ∧
    lookupRS (aggregate [Except.ok [⟨"20180101000000", ""⟩]]) "" = some "20180101000000" :=
  ⟨rfl, by decide, rfl⟩

/-- Claim C6, amended: the url of a record is copied verbatim from the
provider response and never checked, so the merged set's keys are exactly
urls contributed by successful tasks; whenever every successful task's
records carry non-empty urls, every key of the merged ResultSet is
non-empty (an empty url in a response, however, becomes an empty key). -/
theorem claim_C6_amended (tasks : List (Except ReqwestError (List Wurl)))
    (h : ∀ t ∈ tasks, ∀ u ∈ taskUrls t, u ≠ "") :
    ∀ k ∈ rsKeys (aggregate tasks), k ≠ "" := by
  intro k hk
  rcases mem_rsKeys_foldl_mergeTask tasks [] k hk with h' | h'
  · simp [rsKeys] at h'
  · rcases h' with ⟨t, ht, hu⟩
    exact h t ht k hu

theorem claim_C6_amended_witness :
    (∀ t ∈ ([Except.ok [⟨"20200101000000", "http://x/1"⟩]] :
        List (Except ReqwestError (List Wurl))), ∀ u ∈ taskUrls t, u ≠ "") ∧
    ("http://x/1" : String) ≠ "" :=
  ⟨by decide, claim_C6_amended [Except.ok [⟨"20200101000000", "http://x/1"⟩]]
    (by decide) "http://x/1" (by decide)⟩

/-- Claim C7: a provider task whose fetch fails contributes nothing to the
ResultSet (the if let Ok guard skips it) and the remaining tasks are still
merged; in the concrete mixed-success scenario the merged ResultSet is
exactly the two entries of the successful providers. -/
theorem claim_C7 :
    (∀ (m : ResultSet) (e : ReqwestError), mergeTask m (Except.error e) = m) ∧
    aggregate [Except.ok [⟨"20200101000000", "http://x/1"⟩],
      Except.error ReqwestError.transport,
      Except.ok [⟨"", "http://x/2"⟩]] =
      [("http://x/1", "20200101000000"), ("http://x/2", "")] :=
  ⟨fun _ _ => rfl, by decide⟩

/-- Claim C8: in timestamped mode the entry with the empty date and url
http://example.com/a produces exactly the diagnostic naming both on stderr,
contributes nothing to stdout, and the entries around it are emitted as if
it were absent; in URL-only mode the same url does reach stdout. -/
theorem claim_C8 (pre post : List (String × String)) :
    (emit true (pre ++ ("http://example.com/a", "") :: post)).stdout =
      (emit true pre).stdout ++ (emit true post).stdout ∧
    (emit true (pre ++ ("http://example.com/a", "") :: post)).stderr =
      (emit true pre).stderr ++
        "failed to parse date [] for URL [http://example.com/a]" :: (emit true post).stderr ∧
    (emit false (pre ++ ("http://example.com/a", "") :: post)).stdout =
      (emit false pre).stdout ++ "http://example.com/a" :: (emit false post).stdout := by
  have h1 : emit true (("http://example.com/a", "") :: post) =
      ⟨(emit true post).stdout,
       "failed to parse date [] for URL [http://example.com/a]" :: (emit true post).stderr⟩ := rfl
  have h2 : emit false (("http://example.com/a", "") :: post) =
      ⟨"http://example.com/a" :: (emit false post).stdout, (emit false post).stderr⟩ := rfl
  refine ⟨?_, ?_, ?_⟩
  · rw [emit_append, h1]
  · rw [emit_append, h1]
  · rw [emit_append, h2]

/-- Claim C9: merging the same successful result list into the ResultSet a
second time yields the same key set as merging it once; the map structure
deduplicates by url key regardless of insertion count. -/
theorem claim_C9 (res : List Wurl) (m : ResultSet) :
    rsKeys (mergeResult (mergeResult m res) res) = rsKeys (mergeResult m res) :=
  rsKeys_mergeResult_of_forall res (mergeResult m res)
    (fun w hw => mem_rsKeys_mergeResult_of_mem res m w hw)

/-- Claim C10 (frame property): merging a record list touches only the keys
that occur in the list; the looked-up value of any url outside the list is
unchanged by the merge. -/
theorem claim_C10 (res : List Wurl) (m : ResultSet) (u : String)
    (h : u ∉ res.map Wurl.url) :
    lookupRS (mergeResult m res) u = lookupRS m u := by
  induction res generalizing m with
  | nil => rfl
  | cons w rest ih =>
    rw [mergeResult_cons]
    have h1 : u ≠ w.url ∧ u ∉ rest.map Wurl.url := by
      simp only [List.map_cons, List.mem_cons] at h
      push_neg at h
      exact h
    rw [ih _ h1.2, lookupRS_insertRS, if_neg (fun he => h1.1 he.symm)]

theorem claim_C10_witness :
    (("http://b" : String) ∉ ([⟨"d", "http://a"⟩] : List Wurl).map Wurl.url) ∧
    lookupRS (mergeResult [("http://b", "19990101000000")] [⟨"d", "http://a"⟩]) "http://b" =
      lookupRS [("http://b", "19990101000000")] "http://b" :=
  ⟨by decide,
    claim_C10 [⟨"d", "http://a"⟩] [("http://b", "19990101000000")] "http://b" (by decide)⟩
